import Mathlib

/-!
Shallow embedding of the BGRAToYUY2Demo conversion engine.

HLSL float arithmetic is modelled exactly over `ℚ`: `float3`/`float4`
become structures of rationals, the HLSL intrinsics `saturate`, `clamp`
and `round` become the corresponding exact operations, and 32-bit
`uint` arithmetic becomes `ℕ` with an explicit `% 2 ^ 32` wherever
wrap-around can occur.  Each compute-shader entry point becomes a
function from the dispatch-thread id to `Option` of the single store it
performs (`none` when the bounds check makes the thread write nothing).
The C++ converter classes are modelled by the arithmetic they perform
on sizes and by the control flow of `Convert`.
-/

/-- HLSL `float3`; the components x, y, z are also addressed as r, g, b
in the shader source. -/
structure Float3 where
  x : ℚ
  y : ℚ
  z : ℚ
  deriving DecidableEq

/-- An HLSL `float4` texel as `Texture2D<float4>.Load` delivers it: the
fields r, g, b, a are the logical color channels.  The BGRA/RGBA memory
order of the texture is resolved by the texture unit, so `.r` is always
the red channel regardless of the DXGI format. -/
structure HFloat4 where
  r : ℚ
  g : ℚ
  b : ℚ
  a : ℚ
  deriving DecidableEq

/-- HLSL `clamp` on floats. -/
def hclamp (v lo hi : ℚ) : ℚ := min (max v lo) hi

/-- HLSL `saturate`: clamp to the unit interval. -/
def saturate (v : ℚ) : ℚ := hclamp v 0 1

/-- HLSL `(uint)round(v)` on the nonnegative values the shaders feed
it: round to nearest (a tie rounds up; the shader rounds ties to even,
but no value in any statement below is an exact tie), then convert to
an unsigned integer. -/
def roundToUint (v : ℚ) : ℕ := (⌊v + 1 / 2⌋).toNat

/-- Byte `i` of a 32-bit word as it appears in memory on the
little-endian target: bits `8 i` through `8 i + 7`. -/
def byteAt (w i : ℕ) : ℕ := w / 2 ^ (8 * i) % 256

/-- `PackYUY2` (identical in both BGRAToYUY2 shader variants): packs
four 8-bit values into one 32-bit word as
`(v << 24) | (y1 << 16) | (u << 8) | y0`, the 32-bit `uint`
wrap-around made explicit. -/
def PackYUY2 (y0 u y1 v : ℕ) : ℕ :=
  ((v <<< 24) % 2 ^ 32) ||| ((y1 <<< 16) % 2 ^ 32) ||| ((u <<< 8) % 2 ^ 32) ||| (y0 % 2 ^ 32)

/-- The constant buffer `ConversionParams` (BGRAToYUY2Converter.h). -/
structure ConversionParams where
  ImageWidth : ℕ
  ImageHeight : ℕ
  OutputStride : ℕ
  Padding : ℕ
  deriving DecidableEq

namespace BGRAToYUY2

/-- `RGBToYUV` of the first BGRAToYUY2 shader variant: saturate the
input, apply the row-scaled BT.601 coefficients, remap Y to `[16,235]`
by `Y·219+16` and U, V to `[16,240]` by `(C+0.5)·224+16`, then clamp
each component to its studio range. -/
def RGBToYUV (rgb : Float3) : Float3 :=
  let r := saturate rgb.x
  let g := saturate rgb.y
  let b := saturate rgb.z
  let Y := 0.299 * r + 0.587 * g + 0.114 * b
  let U := -0.14713 * r - 0.28886 * g + 0.436 * b
  let V := 0.615 * r - 0.51499 * g - 0.10001 * b
  let Y := Y * 219 + 16
  let U := (U + 0.5) * 224 + 16
  let V := (V + 0.5) * 224 + 16
  ⟨hclamp Y 16 235, hclamp U 16 240, hclamp V 16 240⟩

/-- `CSMain` of the first BGRAToYUY2 shader variant.  Thread
`(idx, idy)` converts the horizontal pixel pair at `(2·idx, idy)` and
performs at most one `OutputBuffer.Store`; the result is
`some (byteOffset, word)` for that store, `none` when the thread
writes nothing. -/
def CSMain (p : ConversionParams) (InputTexture : ℕ → ℕ → HFloat4) (idx idy : ℕ) :
    Option (ℕ × ℕ) :=
  let px := idx * 2
  let py := idy
  if px ≥ p.ImageWidth ∨ py ≥ p.ImageHeight then none else
  let pixel0 := InputTexture px py
  let pixel1 := if px + 1 < p.ImageWidth then InputTexture (px + 1) py else pixel0
  let rgb0 : Float3 := ⟨pixel0.b, pixel0.g, pixel0.r⟩
  let rgb1 : Float3 := ⟨pixel1.b, pixel1.g, pixel1.r⟩
  let yuv0 := RGBToYUV rgb0
  let yuv1 := RGBToYUV rgb1
  let uAvg := (yuv0.y + yuv1.y) * 0.5
  let vAvg := (yuv0.z + yuv1.z) * 0.5
  let y0 := roundToUint yuv0.x
  let y1 := roundToUint yuv1.x
  let u := roundToUint uAvg
  let v := roundToUint vAvg
  let packedYUY2 := PackYUY2 y0 u y1 v
  let outputIndex := py * ((p.ImageWidth + 1) / 2) + idx
  let byteOffset := outputIndex * 4
  let maxIndex := ((p.ImageWidth + 1) / 2) * p.ImageHeight
  if outputIndex < maxIndex then some (byteOffset, packedYUY2) else none

end BGRAToYUY2

namespace BGRAToYUY2V2

/-- `RGBToYUV` of the second BGRAToYUY2 shader variant: multiply by the
direct matrix `RGB_TO_YUV_MATRIX` (rows 0.299, 0.587, 0.114 and
-0.169, -0.331, 0.500 and 0.500, -0.419, -0.081), remap by `Y·219+16`
and `C·224+128`, then clamp.  No saturate is applied to the input. -/
def RGBToYUV (rgb : Float3) : Float3 :=
  let yuvX := 0.299 * rgb.x + 0.587 * rgb.y + 0.114 * rgb.z
  let yuvY := -0.169 * rgb.x - 0.331 * rgb.y + 0.500 * rgb.z
  let yuvZ := 0.500 * rgb.x - 0.419 * rgb.y - 0.081 * rgb.z
  ⟨hclamp (yuvX * 219 + 16) 16 235,
   hclamp (yuvY * 224 + 128) 16 240,
   hclamp (yuvZ * 224 + 128) 16 240⟩

/-- `CSMain` of the second BGRAToYUY2 shader variant: same pairing and
averaging, `pixel0.rgb` taken in channel order without a swap, and the
packed word written to the structured buffer slot `outputIndex`; the
result is `some (outputIndex, word)`, `none` when out of bounds. -/
def CSMain (p : ConversionParams) (InputTexture : ℕ → ℕ → HFloat4) (idx idy : ℕ) :
    Option (ℕ × ℕ) :=
  let px := idx * 2
  let py := idy
  if px ≥ p.ImageWidth ∨ py ≥ p.ImageHeight then none else
  let pixel0 := InputTexture px py
  let pixel1 := if px + 1 < p.ImageWidth then InputTexture (px + 1) py else pixel0
  let rgb0 : Float3 := ⟨pixel0.r, pixel0.g, pixel0.b⟩
  let rgb1 : Float3 := ⟨pixel1.r, pixel1.g, pixel1.b⟩
  let yuv0 := RGBToYUV rgb0
  let yuv1 := RGBToYUV rgb1
  let uAvg := (yuv0.y + yuv1.y) * 0.5
  let vAvg := (yuv0.z + yuv1.z) * 0.5
  let y0 := roundToUint yuv0.x
  let y1 := roundToUint yuv1.x
  let u := roundToUint uAvg
  let v := roundToUint vAvg
  let outputIndex := py * ((p.ImageWidth + 1) / 2) + px / 2
  some (outputIndex, PackYUY2 y0 u y1 v)

end BGRAToYUY2V2

/-- The constant buffer `NV12ConversionParams` (NV12ToRGBA shader). -/
structure NV12ConversionParams where
  ImageWidth : ℕ
  ImageHeight : ℕ
  YPlaneStride : ℕ
  UVPlaneStride : ℕ
  deriving DecidableEq

namespace NV12ToRGBA

/-- `RWByteAddressBuffer.Load`: the 32-bit word at byte address `adr`,
read little-endian from the byte contents `buf` of the buffer.  D3D11
requires `adr` to be 4-byte aligned; this definition is the semantics
for aligned addresses and reads the four consecutive bytes otherwise. -/
def Load (buf : ℕ → ℕ) (adr : ℕ) : ℕ :=
  buf adr % 256 + 256 * (buf (adr + 1) % 256) + 65536 * (buf (adr + 2) % 256) +
    16777216 * (buf (adr + 3) % 256)

/-- `YUVToRGB` of the NV12ToRGBA shader: undo the studio-range remap,
apply `YUV_TO_RGB_MATRIX` (rows 1, 0, 1.402 and 1, -0.344, -0.714 and
1, 1.772, 0), then saturate each channel. -/
def YUVToRGB (y u v : ℚ) : Float3 :=
  let y := (y - 16) / 219
  let u := (u - 128) / 224
  let v := (v - 128) / 224
  let r := 1.000 * y + 0.000 * u + 1.402 * v
  let g := 1.000 * y - 0.344 * u - 0.714 * v
  let b := 1.000 * y + 1.772 * u + 0.000 * v
  ⟨saturate r, saturate g, saturate b⟩

/-- The value `yValue` the NV12 shader obtains for pixel `(px, py)`:
`InputBuffer.Load(yOffset)` with `yOffset = py·YPlaneStride + px`
(shader lines computing the Y-plane position and reading it). -/
def yValue (p : NV12ConversionParams) (buf : ℕ → ℕ) (px py : ℕ) : ℕ :=
  Load buf (py * p.YPlaneStride + px)

/-- The chroma address `uvOffset` for pixel `(px, py)`:
`uvPlaneOffset + uvY·UVPlaneStride + uvX` with
`uvX = (px/2)·2`, `uvY = py/2`, `uvPlaneOffset = W·H`. -/
def uvOffset (p : NV12ConversionParams) (px py : ℕ) : ℕ :=
  p.ImageWidth * p.ImageHeight + py / 2 * p.UVPlaneStride + px / 2 * 2

/-- The value `uValue` the shader obtains: `InputBuffer.Load(uvOffset)`. -/
def uValue (p : NV12ConversionParams) (buf : ℕ → ℕ) (px py : ℕ) : ℕ :=
  Load buf (uvOffset p px py)

/-- The value `vValue` the shader obtains: `InputBuffer.Load(uvOffset + 1)`. -/
def vValue (p : NV12ConversionParams) (buf : ℕ → ℕ) (px py : ℕ) : ℕ :=
  Load buf (uvOffset p px py + 1)

/-- `CSMain` of the NV12ToRGBA shader: thread `(idx, idy)` decodes one
pixel; the result is `some rgba` for the value written to
`OutputTexture[pixelPos]`, `none` when the bounds check rejects. -/
def CSMain (p : NV12ConversionParams) (InputBuffer : ℕ → ℕ) (idx idy : ℕ) :
    Option HFloat4 :=
  if idx ≥ p.ImageWidth ∨ idy ≥ p.ImageHeight then none else
  let y : ℚ := yValue p InputBuffer idx idy
  let u : ℚ := uValue p InputBuffer idx idy
  let v : ℚ := vValue p InputBuffer idx idy
  let rgb := YUVToRGB y u v
  some ⟨rgb.x, rgb.y, rgb.z, 1⟩

end NV12ToRGBA

/-- The DXGI formats distinguished by `BGRAToYUY2Converter::Convert`;
`other` stands for every remaining `DXGI_FORMAT` value. -/
inductive DXGIFormat where
  | B8G8R8A8_UNORM
  | R8G8B8A8_UNORM
  | B8G8R8A8_UNORM_SRGB
  | R8G8B8A8_UNORM_SRGB
  | other (code : ℕ)
  deriving DecidableEq

/-- The HRESULT values the modelled paths of `Convert` can return. -/
inductive HResult where
  | S_OK
  | E_INVALIDARG
  deriving DecidableEq

/-- The device/context operations `Convert` performs, in program order. -/
inductive GpuAction where
  | getDesc
  | createSRV (fmt : DXGIFormat)
  | createUAV (numElements : ℕ)
  | mapConstants (p : ConversionParams)
  | dispatchCall (gx gy gz : ℕ)
  deriving DecidableEq

namespace BGRAToYUY2Converter

/-- `CreateOutputBuffer`: the `ByteWidth` of the YUY2 output buffer,
`((width + 1) / 2) * height * 4`. -/
def yuy2Size (width height : ℕ) : ℕ := (width + 1) / 2 * height * 4

/-- `ReadOutputBuffer`: the `dataSize` it reports and copies back,
`((width + 1) / 2) * height * 4`. -/
def dataSize (width height : ℕ) : ℕ := (width + 1) / 2 * height * 4

/-- `Convert`: the dispatch grid X dimension, `(width + 31) / 32`. -/
def dispatchX (width : ℕ) : ℕ := (width + 31) / 32

/-- `Convert`: the dispatch grid Y dimension, `(height + 15) / 16`. -/
def dispatchY (height : ℕ) : ℕ := (height + 15) / 16

/-- The format test of `Convert`: true exactly for the four supported
packed 8-bit formats. -/
def supportedFormat : DXGIFormat → Bool
  | .B8G8R8A8_UNORM => true
  | .R8G8B8A8_UNORM => true
  | .B8G8R8A8_UNORM_SRGB => true
  | .R8G8B8A8_UNORM_SRGB => true
  | .other _ => false

/-- The SRV format `Convert` selects: an SRGB format is viewed as its
UNORM counterpart, every other format is used as is. -/
def srvFormat : DXGIFormat → DXGIFormat
  | .B8G8R8A8_UNORM_SRGB => .B8G8R8A8_UNORM
  | .R8G8B8A8_UNORM_SRGB => .R8G8B8A8_UNORM
  | f => f

/-- Control-flow model of `BGRAToYUY2Converter::Convert`: the returned
HRESULT together with the ordered device actions the call performs.
The texture argument carries its DXGI format, `none` standing for a
null pointer; resource creation and mapping are modelled on their
success path. -/
def Convert (initialized : Bool) (inputTexture : Option DXGIFormat)
    (outputBuffer : Bool) (width height : ℕ) : HResult × List GpuAction :=
  match inputTexture with
  | none => (.E_INVALIDARG, [])
  | some fmt =>
    if !initialized || !outputBuffer then (.E_INVALIDARG, []) else
    if !supportedFormat fmt then (.E_INVALIDARG, [.getDesc]) else
    (.S_OK,
      [.getDesc,
       .createSRV (srvFormat fmt),
       .createUAV ((width + 1) / 2 * height * 4 / 4),
       .mapConstants ⟨width, height, (width + 1) / 2 * 4, 0⟩,
       .dispatchCall (dispatchX width) (dispatchY height) 1])

end BGRAToYUY2Converter

namespace NV12ToRGBAConverter

/-- `CreateNV12InputBuffer`: the total `ByteWidth`,
`yPlaneSize + uvPlaneSize = width·height + width·height/2`. -/
def totalSize (width height : ℕ) : ℕ := width * height + width * height / 2

end NV12ToRGBAConverter

/-- A solid red input texture: every texel has R=1, G=0, B=0, A=1
(the texel a B8G8R8A8_UNORM desktop capture of pure red delivers). -/
def redTex : ℕ → ℕ → HFloat4 := fun _ _ => ⟨1, 0, 0, 1⟩

/-- `ConversionParams` for a 2-by-1 image, filled as `Convert` fills
them (OutputStride = ceil(W/2)·4). -/
def redParams : ConversionParams := ⟨2, 1, 4, 0⟩

/-- `NV12ConversionParams` for a 4-by-2 NV12 image, strides as
`NV12ToRGBAConverter::Convert` sets them (both equal to the width). -/
def nv12ProbeParams : NV12ConversionParams := ⟨4, 2, 4, 4⟩

/-- A concrete NV12 input buffer: byte 0 holds 100, byte 1 holds 50,
every other byte holds 0. -/
def nv12ProbeBuf : ℕ → ℕ := fun n => if n = 0 then 100 else if n = 1 then 50 else 0

/-! ### Helper lemmas -/

/-- Bitwise or of values occupying disjoint bit ranges is addition. -/
theorem lor_disjoint (k : ℕ) : ∀ a b : ℕ, b < 2 ^ k → 2 ^ k * a ||| b = 2 ^ k * a + b := by
  induction k with
  | zero =>
    intro a b hb
    interval_cases b
    simp
  | succ k ih =>
    intro a b hb
    have hb2 : b / 2 < 2 ^ k := by
      rw [Nat.div_lt_iff_lt_mul (by norm_num)]
      calc b < 2 ^ (k + 1) := hb
        _ = 2 ^ k * 2 := by ring
    have hbit : Nat.bit (b % 2 = 1) (b >>> 1) = b :=
      Nat.bit_decide_mod_two_eq_one_shiftRight_one b
    have hshift : b >>> 1 = b / 2 := Nat.shiftRight_one b
    have h2 : 2 ^ (k + 1) * a = Nat.bit false (2 ^ k * a) := by
      simp [Nat.bit_val]
      ring
    rw [h2, ← hbit, Nat.lor_bit, hshift, ih a (b / 2) hb2, Nat.bit_val, Nat.bit_val,
      Nat.bit_val]
    rcases Nat.mod_two_eq_zero_or_one b with h | h <;> simp [h] <;> omega

/-- On byte-sized inputs `PackYUY2` is plain positional arithmetic. -/
theorem PackYUY2_eq_add (y0 u y1 v : ℕ) (h0 : y0 < 256) (h1 : u < 256) (h2 : y1 < 256)
    (h3 : v < 256) : PackYUY2 y0 u y1 v = 16777216 * v + 65536 * y1 + 256 * u + y0 := by
  unfold PackYUY2
  rw [Nat.shiftLeft_eq, Nat.shiftLeft_eq, Nat.shiftLeft_eq]
  rw [Nat.mod_eq_of_lt (by omega), Nat.mod_eq_of_lt (by omega),
      Nat.mod_eq_of_lt (by omega), Nat.mod_eq_of_lt (by omega)]
  have e1 : v * 2 ^ 24 = 2 ^ 24 * v := by ring
  have e2 : y1 * 2 ^ 16 = 2 ^ 16 * y1 := by ring
  have e3 : u * 2 ^ 8 = 2 ^ 8 * u := by ring
  rw [e1, e2, e3]
  have s1 : 2 ^ 8 * u ||| y0 = 2 ^ 8 * u + y0 := lor_disjoint 8 u y0 h0
  have s2 : 2 ^ 16 * y1 ||| (2 ^ 8 * u + y0) = 2 ^ 16 * y1 + (2 ^ 8 * u + y0) :=
    lor_disjoint 16 y1 _ (by omega)
  have s3 : 2 ^ 24 * v ||| (2 ^ 16 * y1 + (2 ^ 8 * u + y0)) =
      2 ^ 24 * v + (2 ^ 16 * y1 + (2 ^ 8 * u + y0)) :=
    lor_disjoint 24 v _ (by omega)
  rw [Nat.lor_assoc, Nat.lor_assoc, s1, s2, s3]
  ring

/-- `hclamp` lands in the clamping interval. -/
theorem hclamp_mem (v lo hi : ℚ) (h : lo ≤ hi) : lo ≤ hclamp v lo hi ∧ hclamp v lo hi ≤ hi :=
  ⟨le_min (le_max_right v lo) h, min_le_right _ _⟩

/-- Rounding a rational lying in a natural-number interval gives a
natural number in the same interval. -/
theorem roundToUint_mem {lo hi : ℕ} {v : ℚ} (h : (lo : ℚ) ≤ v ∧ v ≤ (hi : ℚ)) :
    lo ≤ roundToUint v ∧ roundToUint v ≤ hi := by
  unfold roundToUint
  have hl : (lo : ℤ) ≤ ⌊v + 1 / 2⌋ := Int.le_floor.mpr (by push_cast; linarith [h.1])
  have hu : ⌊v + 1 / 2⌋ < (hi : ℤ) + 1 := by
    rw [Int.floor_lt]
    push_cast
    linarith [h.2]
  omega

/-- The average of two rationals in an interval stays in the interval. -/
theorem avg_mem {lo hi a b : ℚ} (ha : lo ≤ a ∧ a ≤ hi) (hb : lo ≤ b ∧ b ≤ hi) :
    lo ≤ (a + b) * 0.5 ∧ (a + b) * 0.5 ≤ hi := by
  have h05 : (0.5 : ℚ) = 1 / 2 := by norm_num
  rw [h05]
  exact ⟨by linarith [ha.1, hb.1], by linarith [ha.2, hb.2]⟩

/-- The first shader variant's `RGBToYUV` output components lie in the
studio ranges enforced by its final clamps. -/
theorem RGBToYUV_mem (rgb : Float3) :
    (16 ≤ (BGRAToYUY2.RGBToYUV rgb).x ∧ (BGRAToYUY2.RGBToYUV rgb).x ≤ 235) ∧
    (16 ≤ (BGRAToYUY2.RGBToYUV rgb).y ∧ (BGRAToYUY2.RGBToYUV rgb).y ≤ 240) ∧
    (16 ≤ (BGRAToYUY2.RGBToYUV rgb).z ∧ (BGRAToYUY2.RGBToYUV rgb).z ≤ 240) := by
  simp only [BGRAToYUY2.RGBToYUV]
  exact ⟨hclamp_mem _ _ _ (by norm_num), hclamp_mem _ _ _ (by norm_num),
    hclamp_mem _ _ _ (by norm_num)⟩

/-- The second shader variant's `RGBToYUV` output components lie in the
studio ranges enforced by its final clamps. -/
theorem RGBToYUV2_mem (rgb : Float3) :
    (16 ≤ (BGRAToYUY2V2.RGBToYUV rgb).x ∧ (BGRAToYUY2V2.RGBToYUV rgb).x ≤ 235) ∧
    (16 ≤ (BGRAToYUY2V2.RGBToYUV rgb).y ∧ (BGRAToYUY2V2.RGBToYUV rgb).y ≤ 240) ∧
    (16 ≤ (BGRAToYUY2V2.RGBToYUV rgb).z ∧ (BGRAToYUY2V2.RGBToYUV rgb).z ≤ 240) := by
  simp only [BGRAToYUY2V2.RGBToYUV]
  exact ⟨hclamp_mem _ _ _ (by norm_num), hclamp_mem _ _ _ (by norm_num),
    hclamp_mem _ _ _ (by norm_num)⟩

/-- Bytes of a packed word whose four fields carry studio-range values. -/
theorem studio_bytes {y0 u y1 v : ℕ}
    (hy0 : 16 ≤ y0 ∧ y0 ≤ 235) (hu : 16 ≤ u ∧ u ≤ 240)
    (hy1 : 16 ≤ y1 ∧ y1 ≤ 235) (hv : 16 ≤ v ∧ v ≤ 240) :
    (16 ≤ byteAt (PackYUY2 y0 u y1 v) 0 ∧ byteAt (PackYUY2 y0 u y1 v) 0 ≤ 235) ∧
    (16 ≤ byteAt (PackYUY2 y0 u y1 v) 1 ∧ byteAt (PackYUY2 y0 u y1 v) 1 ≤ 240) ∧
    (16 ≤ byteAt (PackYUY2 y0 u y1 v) 2 ∧ byteAt (PackYUY2 y0 u y1 v) 2 ≤ 235) ∧
    (16 ≤ byteAt (PackYUY2 y0 u y1 v) 3 ∧ byteAt (PackYUY2 y0 u y1 v) 3 ≤ 240) := by
  rw [PackYUY2_eq_add y0 u y1 v (by omega) (by omega) (by omega) (by omega)]
  simp only [byteAt]
  norm_num
  omega

/-! ### Claim theorems -/

/-- Claim C7: every 32-bit word produced by `PackYUY2` packs its four
8-bit fields as `(V<<24)|(Y1<<16)|(U<<8)|Y0`, so that on the
little-endian target the four memory bytes of a macropixel are, in
order, Y0, U, Y1, V. -/
theorem packYUY2_little_endian_layout (y0 u y1 v : ℕ)
    (h0 : y0 < 256) (h1 : u < 256) (h2 : y1 < 256) (h3 : v < 256) :
    byteAt (PackYUY2 y0 u y1 v) 0 = y0 ∧ byteAt (PackYUY2 y0 u y1 v) 1 = u ∧
    byteAt (PackYUY2 y0 u y1 v) 2 = y1 ∧ byteAt (PackYUY2 y0 u y1 v) 3 = v := by
  rw [PackYUY2_eq_add y0 u y1 v h0 h1 h2 h3]
  simp only [byteAt]
  norm_num
  omega

/-- Witness for C7 at the concrete bytes 16, 128, 17, 129. -/
theorem packYUY2_little_endian_layout_witness :
    byteAt (PackYUY2 16 128 17 129) 0 = 16 ∧ byteAt (PackYUY2 16 128 17 129) 1 = 128 ∧
    byteAt (PackYUY2 16 128 17 129) 2 = 17 ∧ byteAt (PackYUY2 16 128 17 129) 3 = 129 :=
  packYUY2_little_endian_layout 16 128 17 129 (by omega) (by omega) (by omega) (by omega)

/-- Claim C8: the 4:2:2 output buffer is created with, and the readback
path reports, exactly `ceil(W/2)·H·4` bytes, and the NV12 input buffer
is created with exactly `W·H·3/2` bytes, namely `W·H` luma bytes plus
`W·H/2` chroma bytes. -/
theorem buffer_sizes (W H : ℕ) :
    BGRAToYUY2Converter.yuy2Size W H = (W + 1) / 2 * H * 4 ∧
    BGRAToYUY2Converter.dataSize W H = BGRAToYUY2Converter.yuy2Size W H ∧
    NV12ToRGBAConverter.totalSize W H = W * H + W * H / 2 ∧
    NV12ToRGBAConverter.totalSize W H = W * H * 3 / 2 := by
  refine ⟨rfl, rfl, rfl, ?_⟩
  unfold NV12ToRGBAConverter.totalSize
  generalize W * H = n
  omega

/-- Claim C1: every word stored by the 4:2:2 encode (either shader
variant) carries studio-range bytes: the Y0 and Y1 bytes lie in
[16,235] and the U and V bytes lie in [16,240], for every input image
and every thread that stores at all. -/
theorem encode_bytes_studio_range
    (p : ConversionParams) (tex : ℕ → ℕ → HFloat4) (idx idy off w : ℕ)
    (h : BGRAToYUY2.CSMain p tex idx idy = some (off, w) ∨
         BGRAToYUY2V2.CSMain p tex idx idy = some (off, w)) :
    (16 ≤ byteAt w 0 ∧ byteAt w 0 ≤ 235) ∧
    (16 ≤ byteAt w 1 ∧ byteAt w 1 ≤ 240) ∧
    (16 ≤ byteAt w 2 ∧ byteAt w 2 ≤ 235) ∧
    (16 ≤ byteAt w 3 ∧ byteAt w 3 ≤ 240) := by
  rcases h with h | h
  · simp only [BGRAToYUY2.CSMain] at h
    split at h
    · exact absurd h (by simp)
    · split at h
      · rw [Option.some.injEq, Prod.mk.injEq] at h
        obtain ⟨-, rfl⟩ := h
        exact studio_bytes
          (roundToUint_mem (by exact_mod_cast (RGBToYUV_mem _).1))
          (roundToUint_mem (by exact_mod_cast avg_mem (RGBToYUV_mem _).2.1 (RGBToYUV_mem _).2.1))
          (roundToUint_mem (by exact_mod_cast (RGBToYUV_mem _).1))
          (roundToUint_mem (by exact_mod_cast avg_mem (RGBToYUV_mem _).2.2 (RGBToYUV_mem _).2.2))
      · exact absurd h (by simp)
  · simp only [BGRAToYUY2V2.CSMain] at h
    split at h
    · exact absurd h (by simp)
    · rw [Option.some.injEq, Prod.mk.injEq] at h
      obtain ⟨-, rfl⟩ := h
      exact studio_bytes
        (roundToUint_mem (by exact_mod_cast (RGBToYUV2_mem _).1))
        (roundToUint_mem (by exact_mod_cast avg_mem (RGBToYUV2_mem _).2.1 (RGBToYUV2_mem _).2.1))
        (roundToUint_mem (by exact_mod_cast (RGBToYUV2_mem _).1))
        (roundToUint_mem (by exact_mod_cast avg_mem (RGBToYUV2_mem _).2.2 (RGBToYUV2_mem _).2.2))

/-- Claim C2 (code bug): the luma value the NV12 decode feeds into the
color transform for pixel (0,0) is the full 32-bit word loaded at the
Y-plane offset, not the single byte stored there: on a buffer whose
bytes 0 and 1 hold 100 and 50, the value used is 12900 = 100 + 256·50,
while the byte at offset `0·yStride + 0` is 100. -/
theorem nv12_luma_read_is_word_not_byte :
    NV12ToRGBA.yValue nv12ProbeParams nv12ProbeBuf 0 0 = 12900 ∧
    nv12ProbeBuf (0 * nv12ProbeParams.YPlaneStride + 0) = 100 ∧
    NV12ToRGBA.yValue nv12ProbeParams nv12ProbeBuf 0 0 ≠
      nv12ProbeBuf (0 * nv12ProbeParams.YPlaneStride + 0) := by
  refine ⟨?_, rfl, ?_⟩ <;> decide

/-- Claim C3 counterexample: the two `RGBToYUV` shader variants do not
compute the same chroma byte on pure blue: the first yields a U byte of
226, the second 240 — a gap no rounding convention can bridge. -/
theorem rgbToYUV_variants_differ_on_blue :
    roundToUint (BGRAToYUY2.RGBToYUV ⟨0, 0, 1⟩).y = 226 ∧
    roundToUint (BGRAToYUY2V2.RGBToYUV ⟨0, 0, 1⟩).y = 240 ∧
    roundToUint (BGRAToYUY2.RGBToYUV ⟨0, 0, 1⟩).y ≠
      roundToUint (BGRAToYUY2V2.RGBToYUV ⟨0, 0, 1⟩).y := by
  have h1 : BGRAToYUY2.RGBToYUV ⟨0, 0, 1⟩ = ⟨40.966, 225.664, 105.59776⟩ := by
    simp only [BGRAToYUY2.RGBToYUV, saturate, hclamp]
    norm_num [min_def, max_def]
  have h2 : BGRAToYUY2V2.RGBToYUV ⟨0, 0, 1⟩ = ⟨40.966, 240, 109.856⟩ := by
    simp only [BGRAToYUY2V2.RGBToYUV, hclamp]
    norm_num [min_def, max_def]
  rw [h1, h2]
  refine ⟨?_, ?_, ?_⟩ <;> norm_num [roundToUint] <;> decide

/-- Claim C3 as amended: the two `RGBToYUV` variants agree exactly on
the luma component for every RGB input in the unit cube (their chroma
components differ in general, as the counterexample shows). -/
theorem rgbToYUV_variants_agree_on_luma (r g b : ℚ)
    (hr : 0 ≤ r ∧ r ≤ 1) (hg : 0 ≤ g ∧ g ≤ 1) (hb : 0 ≤ b ∧ b ≤ 1) :
    (BGRAToYUY2.RGBToYUV ⟨r, g, b⟩).x = (BGRAToYUY2V2.RGBToYUV ⟨r, g, b⟩).x := by
  have hsat : ∀ x : ℚ, 0 ≤ x → x ≤ 1 → saturate x = x := by
    intro x h0 h1
    unfold saturate hclamp
    rw [max_eq_left h0, min_eq_left h1]
  simp only [BGRAToYUY2.RGBToYUV, BGRAToYUY2V2.RGBToYUV]
  rw [hsat r hr.1 hr.2, hsat g hg.1 hg.2, hsat b hb.1 hb.2]

/-- Witness for the amended C3 at mid gray. -/
theorem rgbToYUV_variants_agree_on_luma_witness :
    (BGRAToYUY2.RGBToYUV ⟨1/2, 1/2, 1/2⟩).x = (BGRAToYUY2V2.RGBToYUV ⟨1/2, 1/2, 1/2⟩).x :=
  rgbToYUV_variants_agree_on_luma (1/2) (1/2) (1/2) (by norm_num) (by norm_num) (by norm_num)

/-- Claim C4 (code bug): on a solid red 2-by-1 image the first encode
shader stores the macropixel (41, 226, 41, 106), and the decode color
transform maps those bytes to a color with red channel 0, green below
0.1 and blue above 0.7 — blue, not a color within a few LSB of red.
The cause is the swap `float3(pixel.b, pixel.g, pixel.r)` applied to a
texel that `Load` already delivers in RGB channel order. -/
theorem red_roundtrip_decodes_blue :
    BGRAToYUY2.CSMain redParams redTex 0 0 = some (0, PackYUY2 41 226 41 106) ∧
    (NV12ToRGBA.YUVToRGB 41 226 106).x = 0 ∧
    (NV12ToRGBA.YUVToRGB 41 226 106).y < 0.1 ∧
    (NV12ToRGBA.YUVToRGB 41 226 106).z > 0.7 := by
  have h : BGRAToYUY2.RGBToYUV ⟨0, 0, 1⟩ = ⟨40.966, 225.664, 105.59776⟩ := by
    simp only [BGRAToYUY2.RGBToYUV, saturate, hclamp]
    norm_num [min_def, max_def]
  refine ⟨?_, ?_, ?_, ?_⟩
  · simp only [BGRAToYUY2.CSMain, redParams, redTex]
    norm_num [h, roundToUint]
    decide
  all_goals
    simp only [NV12ToRGBA.YUVToRGB, saturate, hclamp]
    norm_num [min_def, max_def]

/-- Claim C9: whenever `Convert` is handed a texture whose format is
not one of the four recognized packed formats, it returns E_INVALIDARG
and performs no device work beyond reading the texture description: no
view creation, no constant-buffer write, no dispatch. -/
theorem convert_rejects_unsupported_format (initialized outputBuffer : Bool)
    (fmt : DXGIFormat) (width height : ℕ)
    (hfmt : BGRAToYUY2Converter.supportedFormat fmt = false) :
    (BGRAToYUY2Converter.Convert initialized (some fmt) outputBuffer width height).1 =
      HResult.E_INVALIDARG ∧
    ∀ a ∈ (BGRAToYUY2Converter.Convert initialized (some fmt) outputBuffer width height).2,
      a = GpuAction.getDesc := by
  unfold BGRAToYUY2Converter.Convert
  rcases initialized <;> rcases outputBuffer <;> simp [hfmt]

/-- Witness for C9 at DXGI format code 24 (R10G10B10A2_UNORM). -/
theorem convert_rejects_unsupported_format_witness :
    (BGRAToYUY2Converter.Convert true (some (DXGIFormat.other 24)) true 100 50).1 =
      HResult.E_INVALIDARG ∧
    ∀ a ∈ (BGRAToYUY2Converter.Convert true (some (DXGIFormat.other 24)) true 100 50).2,
      a = GpuAction.getDesc :=
  convert_rejects_unsupported_format true true (DXGIFormat.other 24) 100 50 rfl

/-- Claim C10: for every in-bounds pixel the NV12 decode writes an
RGBA value whose alpha component is 1, whatever the input bytes. -/
theorem nv12_decode_alpha_one (p : NV12ConversionParams) (buf : ℕ → ℕ) (idx idy : ℕ)
    (hx : idx < p.ImageWidth) (hy : idy < p.ImageHeight) :
    ∃ out : HFloat4, NV12ToRGBA.CSMain p buf idx idy = some out ∧ out.a = 1 := by
  simp only [NV12ToRGBA.CSMain]
  rw [if_neg (by omega)]
  exact ⟨_, rfl, rfl⟩

/-- Witness for C10 at the concrete probe image. -/
theorem nv12_decode_alpha_one_witness :
    ∃ out : HFloat4, NV12ToRGBA.CSMain nv12ProbeParams nv12ProbeBuf 0 0 = some out ∧
      out.a = 1 :=
  nv12_decode_alpha_one nv12ProbeParams nv12ProbeBuf 0 0 (by norm_num [nv12ProbeParams])
    (by norm_num [nv12ProbeParams])

/-- Witness for C1: the word the first shader stores for a solid red
2-by-1 image carries studio-range bytes. -/
theorem encode_bytes_studio_range_witness :
    (16 ≤ byteAt (PackYUY2 41 226 41 106) 0 ∧ byteAt (PackYUY2 41 226 41 106) 0 ≤ 235) ∧
    (16 ≤ byteAt (PackYUY2 41 226 41 106) 1 ∧ byteAt (PackYUY2 41 226 41 106) 1 ≤ 240) ∧
    (16 ≤ byteAt (PackYUY2 41 226 41 106) 2 ∧ byteAt (PackYUY2 41 226 41 106) 2 ≤ 235) ∧
    (16 ≤ byteAt (PackYUY2 41 226 41 106) 3 ∧ byteAt (PackYUY2 41 226 41 106) 3 ≤ 240) :=
  encode_bytes_studio_range redParams redTex 0 0 0 (PackYUY2 41 226 41 106)
    (Or.inl (by
      have h : BGRAToYUY2.RGBToYUV ⟨0, 0, 1⟩ = ⟨40.966, 225.664, 105.59776⟩ := by
        simp only [BGRAToYUY2.RGBToYUV, saturate, hclamp]
        norm_num [min_def, max_def]
      simp only [BGRAToYUY2.CSMain, redParams, redTex]
      norm_num [h, roundToUint]
      decide))

/-- Claim C5: in every row of an odd-width image the trailing pixel is
paired with a duplicate of itself: the thread covering it stores a
macropixel whose two luma slots hold the same value and whose chroma
is that single pixel's own chroma, unaveraged; and for a 1-pixel-wide
image every other thread of the row stores nothing, so each row is
exactly one such macropixel. -/
theorem odd_width_duplicates_trailing_pixel
    (p : ConversionParams) (tex : ℕ → ℕ → HFloat4) (py : ℕ)
    (hodd : p.ImageWidth % 2 = 1) (hpy : py < p.ImageHeight) :
    BGRAToYUY2.CSMain p tex ((p.ImageWidth - 1) / 2) py =
      some ((py * ((p.ImageWidth + 1) / 2) + (p.ImageWidth - 1) / 2) * 4,
        PackYUY2
          (roundToUint (BGRAToYUY2.RGBToYUV
            ⟨(tex (p.ImageWidth - 1) py).b, (tex (p.ImageWidth - 1) py).g,
             (tex (p.ImageWidth - 1) py).r⟩).x)
          (roundToUint (BGRAToYUY2.RGBToYUV
            ⟨(tex (p.ImageWidth - 1) py).b, (tex (p.ImageWidth - 1) py).g,
             (tex (p.ImageWidth - 1) py).r⟩).y)
          (roundToUint (BGRAToYUY2.RGBToYUV
            ⟨(tex (p.ImageWidth - 1) py).b, (tex (p.ImageWidth - 1) py).g,
             (tex (p.ImageWidth - 1) py).r⟩).x)
          (roundToUint (BGRAToYUY2.RGBToYUV
            ⟨(tex (p.ImageWidth - 1) py).b, (tex (p.ImageWidth - 1) py).g,
             (tex (p.ImageWidth - 1) py).r⟩).z)) ∧
    (p.ImageWidth = 1 → ∀ idx, 1 ≤ idx → BGRAToYUY2.CSMain p tex idx py = none) := by
  constructor
  · have hpx : (p.ImageWidth - 1) / 2 * 2 = p.ImageWidth - 1 := by omega
    have h05 : ∀ a : ℚ, (a + a) * 0.5 = a := by
      intro a
      rw [show (0.5 : ℚ) = 1 / 2 by norm_num]
      ring
    simp only [BGRAToYUY2.CSMain]
    rw [hpx]
    rw [if_neg (by omega)]
    rw [if_neg (show ¬(p.ImageWidth - 1 + 1 < p.ImageWidth) by omega)]
    have hlt : py * ((p.ImageWidth + 1) / 2) + (p.ImageWidth - 1) / 2 <
        (p.ImageWidth + 1) / 2 * p.ImageHeight := by
      have h1 : (p.ImageWidth - 1) / 2 < (p.ImageWidth + 1) / 2 := by omega
      calc py * ((p.ImageWidth + 1) / 2) + (p.ImageWidth - 1) / 2
          < py * ((p.ImageWidth + 1) / 2) + (p.ImageWidth + 1) / 2 := by omega
        _ = (py + 1) * ((p.ImageWidth + 1) / 2) := by ring
        _ ≤ p.ImageHeight * ((p.ImageWidth + 1) / 2) := Nat.mul_le_mul_right _ hpy
        _ = (p.ImageWidth + 1) / 2 * p.ImageHeight := Nat.mul_comm _ _
    rw [if_pos hlt]
    simp only [h05]
  · intro hW idx hidx
    simp only [BGRAToYUY2.CSMain]
    rw [if_pos (Or.inl (show idx * 2 ≥ p.ImageWidth by omega))]

/-- Witness for C5 on a 1-by-1 solid red image. -/
theorem odd_width_duplicates_trailing_pixel_witness :
    BGRAToYUY2.CSMain ⟨1, 1, 4, 0⟩ redTex 0 0 =
      some (0,
        PackYUY2
          (roundToUint (BGRAToYUY2.RGBToYUV ⟨0, 0, 1⟩).x)
          (roundToUint (BGRAToYUY2.RGBToYUV ⟨0, 0, 1⟩).y)
          (roundToUint (BGRAToYUY2.RGBToYUV ⟨0, 0, 1⟩).x)
          (roundToUint (BGRAToYUY2.RGBToYUV ⟨0, 0, 1⟩).z)) :=
  (odd_width_duplicates_trailing_pixel ⟨1, 1, 4, 0⟩ redTex 0 (by norm_num) (by norm_num)).1

/-- Claim C6: the dispatch grid `((W+31)/32, (H+15)/16)` computed by
`Convert` equals `(ceil(ceil(W/2)/16), ceil(H/16))`; iterating it at
16-by-16 thread granularity, a thread whose logical position lies
outside `[0, ceil(W/2)) × [0, H)` stores nothing, every position inside
produces exactly one store at its own slot `(idy·ceil(W/2) + idx)·4`,
distinct in-range positions store to distinct slots, and the grid
contains every in-range position. -/
theorem encode_grid_covers_exactly (W H : ℕ) (hW : 1 ≤ W) (hH : 1 ≤ H) :
    (BGRAToYUY2Converter.dispatchX W = ((W + 1) / 2 + 15) / 16 ∧
     BGRAToYUY2Converter.dispatchY H = (H + 15) / 16) ∧
    (∀ (s pad : ℕ) (tex : ℕ → ℕ → HFloat4) (idx idy : ℕ),
      (W + 1) / 2 ≤ idx ∨ H ≤ idy →
      BGRAToYUY2.CSMain ⟨W, H, s, pad⟩ tex idx idy = none) ∧
    (∀ (s pad : ℕ) (tex : ℕ → ℕ → HFloat4) (idx idy : ℕ),
      idx < (W + 1) / 2 → idy < H →
      ∃ w, BGRAToYUY2.CSMain ⟨W, H, s, pad⟩ tex idx idy =
        some ((idy * ((W + 1) / 2) + idx) * 4, w)) ∧
    (∀ i1 j1 i2 j2 : ℕ, i1 < (W + 1) / 2 → i2 < (W + 1) / 2 →
      (j1 * ((W + 1) / 2) + i1) * 4 = (j2 * ((W + 1) / 2) + i2) * 4 →
      i1 = i2 ∧ j1 = j2) ∧
    (∀ idx idy : ℕ, idx < (W + 1) / 2 → idy < H →
      idx < 16 * BGRAToYUY2Converter.dispatchX W ∧
      idy < 16 * BGRAToYUY2Converter.dispatchY H) := by
  refine ⟨⟨?_, rfl⟩, ?_, ?_, ?_, ?_⟩
  · unfold BGRAToYUY2Converter.dispatchX
    omega
  · intro s pad tex idx idy hcond
    simp only [BGRAToYUY2.CSMain]
    rw [if_pos (show idx * 2 ≥ W ∨ idy ≥ H by omega)]
  · intro s pad tex idx idy hx hy
    simp only [BGRAToYUY2.CSMain]
    rw [if_neg (show ¬(idx * 2 ≥ W ∨ idy ≥ H) by omega)]
    have hlt : idy * ((W + 1) / 2) + idx < (W + 1) / 2 * H := by
      calc idy * ((W + 1) / 2) + idx < idy * ((W + 1) / 2) + (W + 1) / 2 := by omega
        _ = (idy + 1) * ((W + 1) / 2) := by ring
        _ ≤ H * ((W + 1) / 2) := Nat.mul_le_mul_right _ hy
        _ = (W + 1) / 2 * H := Nat.mul_comm _ _
    rw [if_pos hlt]
    exact ⟨_, rfl⟩
  · intro i1 j1 i2 j2 h1 h2 heq
    have hc : 0 < (W + 1) / 2 := by omega
    have he : j1 * ((W + 1) / 2) + i1 = j2 * ((W + 1) / 2) + i2 :=
      Nat.eq_of_mul_eq_mul_right (by norm_num) heq
    have hm1 : (j1 * ((W + 1) / 2) + i1) % ((W + 1) / 2) = i1 := by
      rw [Nat.add_comm, Nat.add_mul_mod_self_right]
      exact Nat.mod_eq_of_lt h1
    have hm2 : (j2 * ((W + 1) / 2) + i2) % ((W + 1) / 2) = i2 := by
      rw [Nat.add_comm, Nat.add_mul_mod_self_right]
      exact Nat.mod_eq_of_lt h2
    have hd1 : (j1 * ((W + 1) / 2) + i1) / ((W + 1) / 2) = j1 := by
      rw [Nat.add_comm, Nat.add_mul_div_right _ _ hc, Nat.div_eq_of_lt h1, Nat.zero_add]
    have hd2 : (j2 * ((W + 1) / 2) + i2) / ((W + 1) / 2) = j2 := by
      rw [Nat.add_comm, Nat.add_mul_div_right _ _ hc, Nat.div_eq_of_lt h2, Nat.zero_add]
    constructor
    · rw [← hm1, he, hm2]
    · rw [← hd1, he, hd2]
  · intro idx idy hx hy
    unfold BGRAToYUY2Converter.dispatchX BGRAToYUY2Converter.dispatchY
    omega

/-- Witness for C6 on a 3-by-2 image: the thread at logical position
(2, 0) lies outside the two macropixel columns and stores nothing. -/
theorem encode_grid_covers_exactly_witness :
    BGRAToYUY2.CSMain ⟨3, 2, 8, 0⟩ redTex 2 0 = none :=
  (encode_grid_covers_exactly 3 2 (by norm_num) (by norm_num)).2.1 8 0 redTex 2 0
    (Or.inl (by norm_num))
